import Mathlib

/-!
# Verification of the Nural+ extractor PDF pipeline

Shallow embedding of the PDF extraction subsystem of the `extractor`
repository (`src/lib/nural-extractor`):

* the content-stream lexer of the pdf-lib based `PdfExtractor`
  (`extractors/ocr-provider.ts`): `extractStrings`, `readLiteralString`,
  `readHexString`, `readTextArray`, `readOperator`, `decodeText`;
* the color-space resolver and image-stream conversion decision
  (`resolveColorSpace`, `convertImageStreamToPng`, `getFilterNames`,
  `getChannelCount`);
* the image-OCR loop (`extractImageTexts`) and its error propagation;
* the pdfjs-serverless based `PdfExtractor` (`extractors/pdf.ts`) page loop
  with its sparse-page / `ocrPages` / `isScannedPdf` logic;
* the normalization engine (`normalize.ts`).

JavaScript strings are modelled as lists of UTF-16 code units
(`List Nat`, every element `< 2^16`); raw byte sequences are lists of
bytes (`List Nat`, elements `< 256` once passed through `Buffer.from`,
which truncates mod 256).  Content streams are decoded with `latin1`
before lexing, so the lexer sees one unit per byte.
-/

/-! ## Character classes and generic string helpers -/

/-- UTF-16 units of an ASCII Lean string literal (used for concrete inputs). -/
def strUnits (s : String) : List Nat :=
  s.data.map (fun c => c.toNat)

/-- The character set matched by the JavaScript regex class `\s`, which is
also exactly the set stripped by `String.prototype.trim`. -/
def isJsSpace (c : Nat) : Bool :=
  c = 9 ∨ c = 10 ∨ c = 11 ∨ c = 12 ∨ c = 13 ∨ c = 32 ∨ c = 160 ∨ c = 5760 ∨
  (8192 ≤ c ∧ c ≤ 8202) ∨ c = 8232 ∨ c = 8233 ∨ c = 8239 ∨ c = 8287 ∨
  c = 12288 ∨ c = 65279

/-- JavaScript `String.prototype.trim`. -/
def jsTrim (s : List Nat) : List Nat :=
  ((s.dropWhile isJsSpace).reverse.dropWhile isJsSpace).reverse

/-- Regex class `/[A-Za-z]/`. -/
def isAlphaCh (c : Nat) : Bool :=
  (65 ≤ c ∧ c ≤ 90) ∨ (97 ≤ c ∧ c ≤ 122)

/-- Regex class `/[0-7]/`. -/
def isOctalDigit (c : Nat) : Bool :=
  48 ≤ c ∧ c ≤ 55

/-- Regex class `/[0-9]/`. -/
def isDigitCh (c : Nat) : Bool :=
  48 ≤ c ∧ c ≤ 57

/-- Regex class `/[0-9A-Fa-f]/`. -/
def isHexDigit (c : Nat) : Bool :=
  (48 ≤ c ∧ c ≤ 57) ∨ (65 ≤ c ∧ c ≤ 70) ∨ (97 ≤ c ∧ c ≤ 102)

/-- Value of a single hex digit character. -/
def hexVal (c : Nat) : Nat :=
  if c ≤ 57 then c - 48 else if c ≤ 70 then c - 55 else c - 87

/-! ## `decodeText` (ocr-provider.ts, lines 492–514)

`decodeText` receives the raw byte values collected by the string readers,
builds a `Buffer` from them (truncation mod 256), and dispatches on a
UTF-16 byte-order mark; without a BOM it decodes as UTF-8 and falls back to
`latin1` when the result contains U+FFFD.

`Buffer.prototype.swap16` throws on a buffer of odd length, so the big-endian
BOM branch is partial: the embedding returns `none` for a thrown exception,
which callers propagate. -/

/-- Node `buf.swap16().toString("utf16le")` on an even-length buffer: big-endian
16-bit units. -/
def utf16be : List Nat → List Nat
  | a :: b :: rest => (256 * a + b) :: utf16be rest
  | _ => []

/-- Node `buf.toString("utf16le")`: little-endian 16-bit units, a trailing odd
byte is ignored by Node. -/
def utf16lePairs : List Nat → List Nat
  | a :: b :: rest => (a + 256 * b) :: utf16lePairs rest
  | _ => []

/-- Is `b` a UTF-8 continuation byte? -/
def isCont (b : Nat) : Bool :=
  128 ≤ b ∧ b ≤ 191

/-- Valid range of the second byte of a 3-byte UTF-8 sequence with lead `b`
(per the WHATWG encoding standard, as implemented by V8/Node). -/
def utf8Second3 (b b2 : Nat) : Bool :=
  if b = 224 then 160 ≤ b2 ∧ b2 ≤ 191
  else if b = 237 then 128 ≤ b2 ∧ b2 ≤ 159
  else isCont b2

/-- Valid range of the second byte of a 4-byte UTF-8 sequence with lead `b`. -/
def utf8Second4 (b b2 : Nat) : Bool :=
  if b = 240 then 144 ≤ b2 ∧ b2 ≤ 191
  else if b = 244 then 128 ≤ b2 ∧ b2 ≤ 143
  else isCont b2

/-- Code point of a 2-byte UTF-8 sequence. -/
def cp2 (b b2 : Nat) : Nat := (b - 192) * 64 + (b2 - 128)

/-- Code point of a 3-byte UTF-8 sequence. -/
def cp3 (b b2 b3 : Nat) : Nat := (b - 224) * 4096 + (b2 - 128) * 64 + (b3 - 128)

/-- Code point of a 4-byte UTF-8 sequence. -/
def cp4 (b b2 b3 b4 : Nat) : Nat :=
  (b - 240) * 262144 + (b2 - 128) * 4096 + (b3 - 128) * 64 + (b4 - 128)

/-- UTF-16 surrogate pair for a supplementary code point. -/
def surrogatePair (cp : Nat) : List Nat :=
  [55296 + (cp - 65536) / 1024, 56320 + (cp - 65536) % 1024]

/-- Node `buf.toString("utf8")` as code units: strict UTF-8 decoding with U+FFFD
(65533) substituted for every invalid subsequence, supplementary code points
emitted as surrogate pairs.  This models Node's total decoding. -/
def utf8ToUnits : List Nat → List Nat
  | [] => []
  | b :: rest =>
    if b < 128 then b :: utf8ToUnits rest
    else if 194 ≤ b ∧ b ≤ 223 then
      match rest with
      | b2 :: rest2 =>
        if isCont b2 then cp2 b b2 :: utf8ToUnits rest2
        else 65533 :: utf8ToUnits (b2 :: rest2)
      | [] => [65533]
    else if 224 ≤ b ∧ b ≤ 239 then
      match rest with
      | b2 :: rest2 =>
        if utf8Second3 b b2 then
          match rest2 with
          | b3 :: rest3 =>
            if isCont b3 then cp3 b b2 b3 :: utf8ToUnits rest3
            else 65533 :: utf8ToUnits (b3 :: rest3)
          | [] => [65533]
        else 65533 :: utf8ToUnits (b2 :: rest2)
      | [] => [65533]
    else if 240 ≤ b ∧ b ≤ 244 then
      match rest with
      | b2 :: rest2 =>
        if utf8Second4 b b2 then
          match rest2 with
          | b3 :: rest3 =>
            if isCont b3 then
              match rest3 with
              | b4 :: rest4 =>
                if isCont b4 then surrogatePair (cp4 b b2 b3 b4) ++ utf8ToUnits rest4
                else 65533 :: utf8ToUnits (b4 :: rest4)
              | [] => [65533]
            else 65533 :: utf8ToUnits (b3 :: rest3)
          | [] => [65533]
        else 65533 :: utf8ToUnits (b2 :: rest2)
      | [] => [65533]
    else 65533 :: utf8ToUnits rest
termination_by s => s.length
decreasing_by all_goals (simp [List.length_cons]; try omega)

/-- Strict UTF-8 decoding to code points: `none` when the byte sequence
contains any invalid subsequence.  This is the specification-side notion of
"attempting UTF-8 decoding"; it is compared against the total `utf8ToUnits`
used by the code path. -/
def utf8Decode : List Nat → Option (List Nat)
  | [] => some []
  | b :: rest =>
    if b < 128 then (utf8Decode rest).map (b :: ·)
    else if 194 ≤ b ∧ b ≤ 223 then
      match rest with
      | b2 :: rest2 =>
        if isCont b2 then (utf8Decode rest2).map (cp2 b b2 :: ·) else none
      | [] => none
    else if 224 ≤ b ∧ b ≤ 239 then
      match rest with
      | b2 :: rest2 =>
        if utf8Second3 b b2 then
          match rest2 with
          | b3 :: rest3 =>
            if isCont b3 then (utf8Decode rest3).map (cp3 b b2 b3 :: ·) else none
          | [] => none
        else none
      | [] => none
    else if 240 ≤ b ∧ b ≤ 244 then
      match rest with
      | b2 :: rest2 =>
        if utf8Second4 b b2 then
          match rest2 with
          | b3 :: rest3 =>
            if isCont b3 then
              match rest3 with
              | b4 :: rest4 =>
                if isCont b4 then (utf8Decode rest4).map (cp4 b b2 b3 b4 :: ·)
                else none
              | [] => none
            else none
          | [] => none
        else none
      | [] => none
    else none
termination_by s => s.length
decreasing_by all_goals (simp [List.length_cons]; try omega)

/-- Encode a list of code points as UTF-16 code units. -/
def utf16EncodeUnits (cps : List Nat) : List Nat :=
  cps.flatMap (fun cp => if cp < 65536 then [cp] else surrogatePair cp)

/-- Embedding of `decodeText` (ocr-provider.ts, lines 492–514).  Input: the raw numbers
pushed by the string readers.  `none` models a thrown exception
(`swap16` on an odd-length buffer). -/
def decodeText (bytes : List Nat) : Option (List Nat) :=
  if bytes.isEmpty then some []
  else
    let buf := bytes.map (· % 256)
    match buf with
    | b0 :: b1 :: rest =>
      if 256 * b0 + b1 = 65279 then
        -- 0xFEFF: buffer.slice(2).swap16().toString("utf16le")
        if rest.length % 2 = 0 then some (utf16be rest) else none
      else if 256 * b0 + b1 = 65534 then
        -- 0xFFFE: buffer.slice(2).toString("utf16le")
        some (utf16lePairs rest)
      else
        let u := utf8ToUnits buf
        some (if u.contains 65533 then buf else u)
    | _ =>
      let u := utf8ToUnits buf
      some (if u.contains 65533 then buf else u)

/-! ## The content-stream lexer (ocr-provider.ts, lines 263–490)

The lexer walks the latin1-decoded content bytes.  Each reader is embedded
in suffix-passing style: instead of an index into the full content string it
receives the suffix starting at the character after the opening delimiter
and returns the unconsumed suffix (the code's `nextIndex`). -/

/-- Prepend one collected byte to a reader state `(bytes, rest)`. -/
def pushByte (b : Nat) (p : List Nat × List Nat) : List Nat × List Nat :=
  (b :: p.1, p.2)

/-- Body of `readLiteralString` (ocr-provider.ts, lines 309–399): balanced
parenthesis scanning with escape handling.  `depth` starts at 1; the input
is the suffix after the opening `(`.  Returns the collected byte values
(octal escapes may exceed 255; `Buffer.from` inside `decodeText` truncates)
and the suffix after the closing parenthesis. -/
def readLitAux : Nat → List Nat → List Nat × List Nat
  | _, [] => ([], [])
  | depth, c :: rest =>
    if c = 92 then
      match rest with
      | [] => ([], [])
      | next :: rest2 =>
        if isOctalDigit next then
          match rest2 with
          | d2 :: rest3 =>
            if isOctalDigit d2 then
              match rest3 with
              | d3 :: rest4 =>
                if isOctalDigit d3 then
                  pushByte ((next - 48) * 64 + (d2 - 48) * 8 + (d3 - 48))
                    (readLitAux depth rest4)
                else
                  pushByte ((next - 48) * 8 + (d2 - 48)) (readLitAux depth (d3 :: rest4))
              | [] => pushByte ((next - 48) * 8 + (d2 - 48)) (readLitAux depth [])
            else pushByte (next - 48) (readLitAux depth (d2 :: rest3))
          | [] => pushByte (next - 48) (readLitAux depth [])
        else if next = 110 then pushByte 10 (readLitAux depth rest2)
        else if next = 114 then pushByte 13 (readLitAux depth rest2)
        else if next = 116 then pushByte 9 (readLitAux depth rest2)
        else if next = 98 then pushByte 8 (readLitAux depth rest2)
        else if next = 102 then pushByte 12 (readLitAux depth rest2)
        else if next = 40 ∨ next = 41 ∨ next = 92 then pushByte next (readLitAux depth rest2)
        else if next = 13 then
          match rest2 with
          | x :: rest3 =>
            if x = 10 then readLitAux depth rest3 else readLitAux depth (x :: rest3)
          | [] => readLitAux depth []
        else if next = 10 then readLitAux depth rest2
        else pushByte next (readLitAux depth rest2)
    else if c = 40 then pushByte 40 (readLitAux (depth + 1) rest)
    else if c = 41 then
      if depth - 1 > 0 then pushByte 41 (readLitAux (depth - 1) rest)
      else ([], rest)
    else pushByte c (readLitAux depth rest)
termination_by _ s => s.length
decreasing_by all_goals (simp [List.length_cons]; try omega)

/-- Embedding of `readLiteralString`: collected bytes decoded by `decodeText` (`none`
models a thrown decode exception), plus the unconsumed suffix. -/
def readLiteralString (s : List Nat) : Option (List Nat) × List Nat :=
  (decodeText (readLitAux 1 s).1, (readLitAux 1 s).2)

/-- Digit-collection loop of `readHexString` (ocr-provider.ts, lines
401–415): append every non-whitespace character until `>` (consumed) or the
end of the content; returns the collected characters and the suffix. -/
def collectHex : List Nat → List Nat × List Nat
  | [] => ([], [])
  | c :: rest =>
    if c = 62 then ([], rest)
    else
      if isJsSpace c then collectHex rest
      else (c :: (collectHex rest).1, (collectHex rest).2)

/-- JavaScript `parseInt(<two chars>, 16)` as used on the collected pairs.  JavaScript
`parseInt` parses the longest valid prefix and yields `NaN` when there is
none; the collected bytes are consumed only by `Buffer.from`, which maps
`NaN` to 0, so the `NaN` case collapses to 0 here. -/
def hexPairVal (a b : Nat) : Nat :=
  if isHexDigit a then (if isHexDigit b then 16 * hexVal a + hexVal b else hexVal a)
  else 0

/-- The `hex.slice(i, i + 2)` pairing loop of `readHexString`. -/
def hexPairs : List Nat → List Nat
  | a :: b :: rest => hexPairVal a b :: hexPairs rest
  | [a] => [if isHexDigit a then hexVal a else 0]
  | [] => []

/-- Embedding of `readHexString` (ocr-provider.ts, lines 401–427): collect until `>`,
pad an odd-length digit string with a trailing `0`, decode pairs, then
`decodeText`. -/
def readHexString (s : List Nat) : Option (List Nat) × List Nat :=
  (decodeText
    (hexPairs
      (if (collectHex s).1.length % 2 = 1 then (collectHex s).1 ++ [48]
       else (collectHex s).1)),
   (collectHex s).2)

/-- Maximal run of `/[A-Za-z]/` characters and the remaining suffix. -/
def takeAlpha : List Nat → List Nat × List Nat
  | [] => ([], [])
  | c :: rest =>
    if isAlphaCh c then (c :: (takeAlpha rest).1, (takeAlpha rest).2)
    else ([], c :: rest)

/-- Embedding of `readOperator` (ocr-provider.ts, lines 461–486): skip whitespace, accept
a bare `'` or `"`, otherwise the next alphabetic run; `none` when no
operator name is found. -/
def readOperator (s : List Nat) : Option (List Nat) × List Nat :=
  match s.dropWhile isJsSpace with
  | [] => (none, [])
  | c :: rest =>
    if c = 39 ∨ c = 34 then (some [c], rest)
    else
      if (takeAlpha (c :: rest)).1.isEmpty then (none, rest)
      else (some (takeAlpha (c :: rest)).1, (takeAlpha (c :: rest)).2)

/-- Embedding of `isSimpleTextOperator` (ocr-provider.ts, lines 488–490). -/
def isSimpleTextOperator (o : Option (List Nat)) : Bool :=
  o = some (strUnits "Tj") ∨ o = some [39] ∨ o = some [34]

lemma length_dropWhile_le (p : Nat → Bool) (l : List Nat) :
    (l.dropWhile p).length ≤ l.length := by
  induction l with
  | nil => simp
  | cons a l ih => by_cases h : p a <;> simp [List.dropWhile, h] <;> omega

lemma readLitAux_sndLe (d : Nat) (s : List Nat) :
    (readLitAux d s).2.length ≤ s.length := by
  induction d, s using readLitAux.induct
  all_goals rw [readLitAux.eq_def]
  all_goals first
    | (simp_all [pushByte]; omega)
    | simp_all [pushByte]

lemma collectHex_sndLe (s : List Nat) : (collectHex s).2.length ≤ s.length := by
  induction s using collectHex.induct
  all_goals first
    | (simp_all [collectHex]; omega)
    | simp_all [collectHex]

lemma takeAlpha_sndLe (s : List Nat) : (takeAlpha s).2.length ≤ s.length := by
  induction s using takeAlpha.induct
  all_goals first
    | (simp_all [takeAlpha]; omega)
    | simp_all [takeAlpha]

lemma readLiteralString_sndLe (s : List Nat) :
    (readLiteralString s).2.length ≤ s.length := readLitAux_sndLe 1 s

lemma readHexString_sndLe (s : List Nat) :
    (readHexString s).2.length ≤ s.length := collectHex_sndLe s

lemma readOperator_sndLe (s : List Nat) :
    (readOperator s).2.length ≤ s.length := by
  have hdw : (s.dropWhile isJsSpace).length ≤ s.length := length_dropWhile_le isJsSpace s
  unfold readOperator
  rcases h : s.dropWhile isJsSpace with _ | ⟨c, rest⟩
  · simp
  · rw [h] at hdw
    simp only [List.length_cons] at hdw
    have hta := takeAlpha_sndLe (c :: rest)
    simp only [List.length_cons] at hta
    by_cases h1 : c = 39 ∨ c = 34 <;> by_cases h2 : (takeAlpha (c :: rest)).1.isEmpty <;>
      simp [h1, h2] <;> omega

/-- Embedding of `readTextArray` (ocr-provider.ts, lines 429–459): collect only nested
literal and hex string items until `]`; every other character (numeric
kerning adjustments, whitespace) is stepped over.  `none` models a thrown
decode exception. -/
def readTextArray : List Nat → Option (List (List Nat) × List Nat)
  | [] => some ([], [])
  | c :: rest =>
    if c = 93 then some ([], rest)
    else if c = 40 then
      match (readLiteralString rest).1 with
      | none => none
      | some text =>
        match readTextArray (readLiteralString rest).2 with
        | none => none
        | some (items, r) => some (text :: items, r)
    else if c = 60 ∧ rest.head? ≠ some 60 then
      match (readHexString rest).1 with
      | none => none
      | some text =>
        match readTextArray (readHexString rest).2 with
        | none => none
        | some (items, r) => some (text :: items, r)
    else readTextArray rest
termination_by s => s.length
decreasing_by
  all_goals simp only [List.length_cons]
  all_goals try exact Nat.lt_succ_of_le (readLiteralString_sndLe _)
  all_goals try exact Nat.lt_succ_of_le (readHexString_sndLe _)
  all_goals omega

lemma readTextArray_sndLe (s : List Nat) :
    ∀ items r, readTextArray s = some (items, r) → r.length ≤ s.length := by
  induction s using readTextArray.induct with
  | case1 =>
    intro items r hr
    rw [readTextArray.eq_def] at hr
    simp_all
  | case2 rest =>
    intro items r hr
    rw [readTextArray.eq_def] at hr
    simp_all
  | case3 rest h1 h2 =>
    intro items r hr
    rw [readTextArray.eq_def] at hr
    simp_all
  | case4 rest text h1 h2 h3 ih =>
    intro items r hr
    rw [readTextArray.eq_def] at hr
    simp_all
  | case5 rest text h1 items0 r0 h2 h3 ih =>
    intro items r hr
    rw [readTextArray.eq_def] at hr
    simp only [if_neg, reduceIte, h1, h2] at hr
    obtain ⟨-, rfl⟩ := Option.some.inj hr
    exact le_trans (ih items0 r0 h2) (le_trans (readLiteralString_sndLe rest) (Nat.le_succ _))
  | case6 b rest h1 h2 h3 h4 =>
    intro items r hr
    rw [readTextArray.eq_def] at hr
    simp_all
  | case7 b rest h1 h2 h3 text h4 h5 ih =>
    intro items r hr
    rw [readTextArray.eq_def] at hr
    simp_all
  | case8 b rest h1 h2 h3 text h4 items0 r0 h5 ih =>
    intro items r hr
    obtain ⟨hb, hh⟩ := h3
    subst hb
    rw [readTextArray.eq_def] at hr
    simp [hh, h4, h5] at hr
    obtain ⟨-, rfl⟩ := hr
    exact le_trans (ih items0 r0 h5) (le_trans (readHexString_sndLe rest) (Nat.le_succ _))
  | case9 b rest h1 h2 h3 ih =>
    intro items r hr
    rw [readTextArray.eq_def] at hr
    simp only [h1, h2, h3, if_false, if_neg, reduceIte] at hr
    exact le_trans (ih items r hr) (Nat.le_succ _)

/-- Embedding of `extractStrings` (ocr-provider.ts, lines 263–307): scan the content,
and at `(` / `<` (not `<<`) / `[` read a literal string, hex string, or
text array; after the token read the following operator.  A literal or hex
string is kept only when the operator is a simple text operator
(`Tj`, `'`, `"`); an array is kept (items concatenated) only when the
operator is `TJ` and the array has at least one string item.  `none` models
a thrown decode exception. -/
def extractStrings : List Nat → Option (List (List Nat))
  | [] => some []
  | c :: rest =>
    if c = 40 then
      match (readLiteralString rest).1 with
      | none => none
      | some text =>
        match extractStrings (readOperator (readLiteralString rest).2).2 with
        | none => none
        | some tl =>
          some
            (if isSimpleTextOperator (readOperator (readLiteralString rest).2).1 then
              text :: tl
            else tl)
    else if c = 60 ∧ rest.head? ≠ some 60 then
      match (readHexString rest).1 with
      | none => none
      | some text =>
        match extractStrings (readOperator (readHexString rest).2).2 with
        | none => none
        | some tl =>
          some
            (if isSimpleTextOperator (readOperator (readHexString rest).2).1 then
              text :: tl
            else tl)
    else if c = 91 then
      match hta : readTextArray rest with
      | none => none
      | some (items, rest1) =>
        match extractStrings (readOperator rest1).2 with
        | none => none
        | some tl =>
          some
            (if (readOperator rest1).1 = some (strUnits "TJ") ∧ 0 < items.length then
              items.flatten :: tl
            else tl)
    else extractStrings rest
termination_by s => s.length
decreasing_by
  all_goals simp only [List.length_cons]
  all_goals try
    (have h1 := readOperator_sndLe (readLiteralString rest).2
     have h2 := readLiteralString_sndLe rest
     omega)
  all_goals try
    (have h1 := readOperator_sndLe (readHexString rest).2
     have h2 := readHexString_sndLe rest
     omega)
  all_goals try
    (have h1 := readOperator_sndLe rest1
     have h2 := readTextArray_sndLe rest _ _ hta
     omega)
  all_goals omega

/-! ## Normalization engine (normalize.ts)

Each regex `replace` step of `normalizeText` is embedded as a scan with
JavaScript global-replace semantics: a match is consumed and scanning
resumes after it (no overlap with the replaced text). -/

/-- Step 1: `.replace(/[\x00\x0C]/g, "")` — drop null bytes and form feeds. -/
def removeArtifacts (s : List Nat) : List Nat :=
  s.filter (fun c => ¬(c = 0 ∨ c = 12))

/-- Step 2: `.replace(/[ ​‌‍﻿]/g, " ")`. -/
def mapSpaceLikes (s : List Nat) : List Nat :=
  s.map (fun c => if c = 160 ∨ c = 8203 ∨ c = 8204 ∨ c = 8205 ∨ c = 65279 then 32 else c)

/-- Step 3: `.replace(/([^\n])\n([^\n])/g, "$1 $2")` — merge a single
newline between two non-newline characters into a space.  A match consumes
both context characters, so scanning resumes after the second one. -/
def mergeLines : List Nat → List Nat
  | a :: b :: c :: rest =>
    if a ≠ 10 ∧ b = 10 ∧ c ≠ 10 then a :: 32 :: c :: mergeLines rest
    else a :: mergeLines (b :: c :: rest)
  | s => s

/-- Step 4 state machine: `pending` counts newlines of the current run;
a run of 3 or more is emitted as exactly two. -/
def collapseNLAux : Nat → List Nat → List Nat
  | pending, [] => List.replicate (if 3 ≤ pending then 2 else pending) 10
  | pending, c :: rest =>
    if c = 10 then collapseNLAux (pending + 1) rest
    else
      List.replicate (if 3 ≤ pending then 2 else pending) 10 ++ c :: collapseNLAux 0 rest

/-- Step 4: `.replace(/\n{3,}/g, "\n\n")` — collapse runs of three or more
newlines to a blank line. -/
def collapseNL (s : List Nat) : List Nat := collapseNLAux 0 s

/-- Step 5 state machine: `inRun` records whether we are inside a run of
spaces/tabs that already emitted its single space. -/
def collapseHWAux : Bool → List Nat → List Nat
  | _, [] => []
  | inRun, c :: rest =>
    if c = 32 ∨ c = 9 then
      if inRun then collapseHWAux true rest else 32 :: collapseHWAux true rest
    else c :: collapseHWAux false rest

/-- Step 5: `.replace(/[ \t]+/g, " ")` — collapse horizontal whitespace. -/
def collapseHW (s : List Nat) : List Nat := collapseHWAux false s

/-- Splitting at every newline, as JavaScript `split("\n")` does. -/
def splitOnNL : List Nat → List (List Nat)
  | [] => [[]]
  | c :: rest =>
    if c = 10 then [] :: splitOnNL rest
    else
      match splitOnNL rest with
      | [] => [[c]]
      | h :: t => (c :: h) :: t

/-- Joining with newline separators, as JavaScript `join("\n")` does. -/
def joinNL : List (List Nat) → List Nat
  | [] => []
  | [x] => x
  | x :: rest => x ++ 10 :: joinNL rest

/-- Embedding of `normalizeText` (normalize.ts, lines 24–42): the five replaces, then
per-line trim, then the outer trim. -/
def normalizeText (raw : List Nat) : List Nat :=
  jsTrim (joinNL ((splitOnNL
    (collapseHW (collapseNL (mergeLines (mapSpaceLikes (removeArtifacts raw)))))).map jsTrim))

/-- Chunk type tags (types.ts). -/
inductive ChunkType where
  | heading | paragraph | table | list | image
deriving DecidableEq, Repr

/-- Model of `ContentChunk` (types.ts): `id` is empty until normalization assigns
one; `page`/`section` are optional. -/
structure ContentChunk where
  id : List Nat
  type : ChunkType
  text : List Nat
  page : Option Nat := none
  sectionLabel : Option (List Nat) := none
deriving DecidableEq, Repr

/-- Embedding of `normalizeChunks` (normalize.ts, lines 54–65).  `uuidv4()` is modelled
by an id supply indexed by the chunk's position among the survivors. -/
def normalizeChunks (fresh : Nat → List Nat) (chunks : List ContentChunk) :
    List ContentChunk :=
  (((chunks.map (fun c => { c with text := normalizeText c.text })).filter
    (fun c => 0 < c.text.length)).mapIdx
    (fun i c => { c with id := fresh i }))

/-- Model of `ExtractedDocument` (types.ts), restricted to the fields normalization
touches plus the chunk list. -/
structure ExtractedDocument where
  documentId : List Nat
  fileName : List Nat
  chunks : List ContentChunk
deriving DecidableEq, Repr

/-- Embedding of `normalizeDocument` (normalize.ts, lines 75–81): keep a truthy
(non-empty) documentId, otherwise draw a fresh one; normalize the chunks. -/
def normalizeDocument (docFresh : List Nat) (fresh : Nat → List Nat)
    (doc : ExtractedDocument) : ExtractedDocument :=
  { doc with
    documentId := if doc.documentId.isEmpty then docFresh else doc.documentId
    chunks := normalizeChunks fresh doc.chunks }

/-- The chunk texts of a document, the observable compared by the
idempotence property. -/
def chunkTexts (doc : ExtractedDocument) : List (List Nat) :=
  doc.chunks.map (fun c => c.text)

/-! ## pdfjs-serverless `PdfExtractor` (extractors/pdf.ts)

A page's input is its pdfjs text content: the items that carry a `str`
field are modelled as `some str` (a `none` item has no `str` field and is
filtered out, pdf.ts lines 45–48). -/

/-- Joining with single spaces, as JavaScript `join(" ")` does. -/
def joinSpace : List (List Nat) → List Nat
  | [] => []
  | [x] => x
  | x :: rest => x ++ 32 :: joinSpace rest

/-- The page text of pdf.ts lines 45–48: filter items with `str`, join
with single spaces. -/
def pageTextOf (items : List (Option (List Nat))) : List Nat :=
  joinSpace (items.filterMap id)

/-- Embedding of `pageText.split(/\n{2,}/)`: split on maximal runs of two or more
newlines (a single newline stays inside its piece). -/
def splitParagraphs : List Nat → List (List Nat)
  | [] => [[]]
  | a :: rest =>
    if a = 10 ∧ rest.head? = some 10 then
      [] :: splitParagraphs ((rest.drop 1).dropWhile (· = 10))
    else
      match splitParagraphs rest with
      | [] => [[a]]
      | h :: t => (a :: h) :: t
termination_by s => s.length
decreasing_by
  all_goals simp only [List.length_cons]
  all_goals try
    (have h1 := length_dropWhile_le (fun c => c = 10) (rest.drop 1)
     have h2 : (rest.drop 1).length ≤ rest.length := by simp [List.length_drop]
     omega)
  all_goals omega

/-- Test of `/\d{4,}/`: does the text contain four consecutive decimal
digits? -/
def hasDigitRun4 : List Nat → Bool
  | a :: b :: c :: d :: rest =>
    (isDigitCh a ∧ isDigitCh b ∧ isDigitCh c ∧ isDigitCh d) ∨ hasDigitRun4 (b :: c :: d :: rest)
  | _ => false

/-- ASCII model of `text.toUpperCase()` (the heading heuristic
is not the subject of any claim; non-ASCII case mapping is not modelled). -/
def jsToUpper (s : List Nat) : List Nat :=
  s.map (fun c => if 97 ≤ c ∧ c ≤ 122 then c - 32 else c)

/-- The heading heuristic of pdf.ts lines 85–88. -/
def isHeadingPdf (para : List Nat) : Bool :=
  para.length < 120 ∧ para = jsToUpper para ∧ ¬hasDigitRun4 para

/-- Constant `MIN_TEXT_LENGTH` (pdf.ts line 29). -/
def MIN_TEXT_LENGTH : Nat := 50

/-- The per-page loop of `PdfExtractor.extract` (pdf.ts lines 40–98),
started at page number `pageNum`; returns the chunks and the `ocrPages`
list in emission order. -/
def pdfPageLoop (pageNum : Nat) :
    List (List (Option (List Nat))) → List ContentChunk × List Nat
  | [] => ([], [])
  | items :: restPages =>
    let pageText := pageTextOf items
    let trimmed := jsTrim pageText
    let restResult := pdfPageLoop (pageNum + 1) restPages
    if trimmed.length < MIN_TEXT_LENGTH then
      ((if 0 < trimmed.length then
          [{ id := [], type := ChunkType.paragraph, text := trimmed, page := some pageNum }]
        else []) ++ restResult.1,
       pageNum :: restResult.2)
    else
      let paragraphs := ((splitParagraphs pageText).map jsTrim).filter (fun p => 0 < p.length)
      ((if paragraphs.isEmpty then
          [{ id := [], type := ChunkType.paragraph, text := pageText, page := some pageNum }]
        else
          paragraphs.map (fun para =>
            { id := [],
              type := if isHeadingPdf para then ChunkType.heading else ChunkType.paragraph,
              text := para, page := some pageNum })) ++ restResult.1,
       restResult.2)

/-- The output of `PdfExtractor.extract` (pdf.ts lines 100–110) restricted
to its deterministic parts (`documentId` is a fresh uuid, `fileName` and
`mimeType` are pass-through). -/
structure PdfExtractResult where
  pageCount : Nat
  ocrPages : List Nat
  isScannedPdf : Bool
  chunks : List ContentChunk
deriving DecidableEq, Repr

/-- Embedding of `PdfExtractor.extract` (pdf.ts): page loop from page 1, then metadata
assembly; `isScannedPdf := ocrPages.length === totalPages && totalPages > 0`. -/
def pdfExtract (pages : List (List (Option (List Nat)))) : PdfExtractResult :=
  let result := pdfPageLoop 1 pages
  { pageCount := pages.length
    ocrPages := result.2
    isScannedPdf := decide (result.2.length = pages.length ∧ 0 < pages.length)
    chunks := result.1 }

/-! ## Color-space resolution and image conversion (ocr-provider.ts) -/

/-- A PDF object as far as `resolveColorSpace`/`getFilterNames` inspect it:
a name (stored without the leading `/` that `normalizeName` strips), an
array, or anything else.  `lookupMaybe(..., PDFName)` / `(..., PDFArray)`
return `undefined` on a type mismatch, modelled by matching constructors. -/
inductive PObj where
  | pname : List Nat → PObj
  | parr : List PObj → PObj
  | pother : PObj

/-- The color-space kinds of ocr-provider.ts line 57. -/
inductive ColorSpaceKind where
  | DeviceRGB | DeviceGray | DeviceCMYK
deriving DecidableEq, Repr

/-- Lookup `colorSpaces.lookupMaybe(value, PDFArray)`: the page's ColorSpace
dictionary is an association list; only an array entry is returned. -/
def lookupCsArray (dict : List (List Nat × PObj)) (key : List Nat) :
    Option (List PObj) :=
  match dict.find? (fun e => e.1 = key) with
  | some (_, PObj.parr elems) => some elems
  | _ => none

/-- Lookup `referenced.lookupMaybe(0, PDFName)`: the first array element when it
is a name. -/
def firstName : List PObj → Option (List Nat)
  | PObj.pname n :: _ => some n
  | _ => none

/-- Embedding of `resolveColorSpace` (ocr-provider.ts, lines 632–655) with an explicit
recursion budget `fuel`: the source function has none, so `none` here means
the recursion of the source has not terminated within `fuel` nested calls.
`some r` is the value the source returns (`r = none` models `null`).
The callers only pass a name, an array, or `undefined`; `pother` is
unreachable and mapped to `null`. -/
def resolveColorSpaceF (fuel : Nat) (value : Option PObj)
    (resources : Option (List (List Nat × PObj))) : Option (Option ColorSpaceKind) :=
  match fuel with
  | 0 => none
  | fuel + 1 =>
    match value with
    | none => some (some ColorSpaceKind.DeviceRGB)
    | some (PObj.pname n) =>
      if n = strUnits "DeviceRGB" then some (some ColorSpaceKind.DeviceRGB)
      else if n = strUnits "DeviceGray" then some (some ColorSpaceKind.DeviceGray)
      else if n = strUnits "DeviceCMYK" then some (some ColorSpaceKind.DeviceCMYK)
      else
        match resources with
        | some colorSpaces =>
          match lookupCsArray colorSpaces n with
          | some referenced =>
            resolveColorSpaceF fuel ((firstName referenced).map PObj.pname) resources
          | none => some none
        | none => some none
    | some (PObj.parr elems) =>
      match firstName elems with
      | some base => resolveColorSpaceF fuel (some (PObj.pname base)) resources
      | none => some none
    | some PObj.pother => some none

/-- Embedding of `getFilterNames` (ocr-provider.ts, lines 613–630).  The argument comes
from `lookupMaybe(Filter, PDFName) ?? lookupMaybe(Filter, PDFArray)`, so it
is a name, an array, or `undefined`; `pother` is unreachable. -/
def getFilterNames : Option PObj → List (List Nat)
  | none => []
  | some (PObj.pname n) => [n]
  | some (PObj.parr elems) =>
    elems.filterMap (fun e => match e with | PObj.pname n => some n | _ => none)
  | some PObj.pother => []

/-- Embedding of `getChannelCount` (ocr-provider.ts, lines 657–668). -/
def getChannelCount : ColorSpaceKind → Option Nat
  | ColorSpaceKind.DeviceGray => some 1
  | ColorSpaceKind.DeviceRGB => some 3
  | ColorSpaceKind.DeviceCMYK => some 4

/-- The dictionary fields of an image XObject stream that
`convertImageStreamToPng` inspects (`Width`/`Height` only size the raster
and are omitted). -/
structure ImgStream where
  filter : Option PObj
  colorSpace : Option PObj
  isRawStream : Bool
  bitsPerComponent : Option Nat

/-- What `convertImageStreamToPng` decides to do with a stream. -/
inductive ConvPlan where
  | jpegPassthrough
  | rawRaster : Nat → ConvPlan
  | skip
deriving DecidableEq, Repr

/-- The conversion decision of `convertImageStreamToPng` (ocr-provider.ts,
lines 562–611): DCT/JPX streams pass through to sharp; otherwise an
unfiltered or purely flate-filtered raw stream with 8 bits per component is
decoded as a raw raster whose channel count comes from the resolved color
space (defaulted to DeviceRGB); everything else is skipped.  The external
codec calls inside the `try` are not modelled; `none` propagates a
non-terminating color-space resolution. -/
def convertPlan (fuel : Nat) (s : ImgStream)
    (resources : Option (List (List Nat × PObj))) : Option ConvPlan :=
  match resolveColorSpaceF fuel s.colorSpace resources with
  | none => none
  | some colorSpace =>
    let filterNames := getFilterNames s.filter
    let bitsPerComponent := s.bitsPerComponent.getD 8
    if filterNames.any (fun n => n = strUnits "DCTDecode" ∨ n = strUnits "JPXDecode") then
      some ConvPlan.jpegPassthrough
    else if (filterNames.isEmpty ∨ filterNames.all (fun n => n = strUnits "FlateDecode")) ∧
        s.isRawStream ∧ bitsPerComponent = 8 then
      match getChannelCount (colorSpace.getD ColorSpaceKind.DeviceRGB) with
      | none => some ConvPlan.skip
      | some channels => some (ConvPlan.rawRaster channels)
    else some ConvPlan.skip

/-! ## The image-OCR loop (ocr-provider.ts, lines 516–560)

`extractImageTexts` recognizes each converted image in order; the
`await provider.recognize(buffer)` call is not wrapped in any `try`, so a
rejection propagates.  `recognize` is abstracted as a function into
`Except`. -/

/-- The recognition loop of `extractImageTexts` (lines 552–557): for each
image buffer, recognize, trim, keep non-empty results.  An `Except.error`
from `recognize` aborts the whole loop. -/
def extractImageTextsE {α ε : Type} (recognize : α → Except ε (List Nat)) :
    List α → Except ε (List (List Nat))
  | [] => Except.ok []
  | buffer :: rest => do
    let text := jsTrim (← recognize buffer)
    let tl ← extractImageTextsE recognize rest
    if 0 < text.length then
      Except.ok (text :: tl)
    else
      Except.ok tl

/-- The document-level page loop of `PdfExtractor.extract` (ocr-provider.ts
lines 80–107) restricted to its image-OCR effects: pages are processed in
order and `await this.extractImageTexts(page)` is not wrapped in any `try`,
so a rejection aborts the whole extraction. -/
def extractDocImagesE {α ε : Type} (recognize : α → Except ε (List Nat)) :
    List (List α) → Except ε (List (List (List Nat)))
  | [] => Except.ok []
  | images :: restPages => do
    let imageTexts ← extractImageTextsE recognize images
    let tl ← extractDocImagesE recognize restPages
    Except.ok (imageTexts :: tl)

/-- The hex decoding described by the specification: pad an odd-length
digit sequence with a trailing zero nibble, then decode digit pairs to
bytes. -/
def specPairs : List Nat → List Nat
  | a :: b :: rest => (16 * hexVal a + hexVal b) :: specPairs rest
  | _ => []

/-- Specification-side hex decoding of a collected digit sequence. -/
def specHexBytes (digits : List Nat) : List Nat :=
  specPairs (if digits.length % 2 = 1 then digits ++ [48] else digits)

/-- A page-local color-space table whose entry `/Foo` is the array
`[/Foo]`: resolving `/Foo` looks up the table and recurses on `/Foo`
again. -/
def cycColorSpaces : List (List Nat × PObj) :=
  [(strUnits "Foo", PObj.parr [PObj.pname (strUnits "Foo")])]

/-- The `ColorSpace` entry `/Foo` of a malformed image dictionary. -/
def cycValue : Option PObj := some (PObj.pname (strUnits "Foo"))

/-- A recognizer that fails on image 2 and succeeds elsewhere, used as the
concrete counterexample provider. -/
def failingRecognizer : Nat → Except Unit (List Nat) :=
  fun b => if b = 2 then Except.error () else Except.ok (strUnits "ok")

/-! ## Claim theorems -/

/-- Claim C1. A literal or hex string token is emitted by `extractStrings` as
recovered text exactly when the operator read immediately after it is a
simple text operator (`Tj`, `'`, `"`); a bracketed array token (its nested
string items concatenated in encounter order) is emitted exactly when the
operator after it is `TJ` (and the array holds at least one string item);
numeric kerning entries inside an array contribute nothing, so
`[(Hel) -250 (lo)] TJ` recovers as `Hello`. -/
theorem extractStrings_text_operator_gate :
    (∀ rest text rest1 op rest2 tl,
      readLiteralString rest = (some text, rest1) →
      readOperator rest1 = (op, rest2) →
      extractStrings rest2 = some tl →
      extractStrings (40 :: rest) =
        some (if isSimpleTextOperator op then text :: tl else tl))
  ∧ (∀ rest text rest1 op rest2 tl,
      rest.head? ≠ some 60 →
      readHexString rest = (some text, rest1) →
      readOperator rest1 = (op, rest2) →
      extractStrings rest2 = some tl →
      extractStrings (60 :: rest) =
        some (if isSimpleTextOperator op then text :: tl else tl))
  ∧ (∀ rest items rest1 op rest2 tl,
      readTextArray rest = some (items, rest1) →
      readOperator rest1 = (op, rest2) →
      extractStrings rest2 = some tl →
      extractStrings (91 :: rest) =
        some (if op = some (strUnits "TJ") ∧ 0 < items.length then
          items.flatten :: tl
        else tl))
  ∧ extractStrings (strUnits "[(Hel) -250 (lo)] TJ") = some [strUnits "Hello"] := by
  refine ⟨?_, ?_, ?_, ?_⟩
  · intro rest text rest1 op rest2 tl h1 h2 h3
    rw [extractStrings.eq_def]
    simp [h1, h2, h3]
  · intro rest text rest1 op rest2 tl hh h1 h2 h3
    rw [extractStrings.eq_def]
    simp [hh, h1, h2, h3]
  · intro rest items rest1 op rest2 tl h1 h2 h3
    rw [extractStrings.eq_def]
    simp
    split
    · simp_all
    · simp_all
  · have h1 : readTextArray [40, 72, 101, 108, 41, 32, 45, 50, 53, 48, 32, 40, 108, 111, 41, 93, 32, 84, 74] =
        some ([[72, 101, 108], [108, 111]], [32, 84, 74]) := by
      simp [readTextArray, readLiteralString, readLitAux, pushByte, isOctalDigit,
            decodeText, utf8ToUnits, readHexString, collectHex, isJsSpace]
    have h2 : readOperator [32, 84, 74] = (some [84, 74], []) := by
      simp [readOperator, takeAlpha, isJsSpace, isAlphaCh, List.dropWhile]
    have h3 : extractStrings ([] : List Nat) = some [] := by simp [extractStrings]
    rw [show strUnits "[(Hel) -250 (lo)] TJ" = 91 :: [40, 72, 101, 108, 41, 32, 45, 50, 53, 48, 32, 40, 108, 111, 41, 93, 32, 84, 74] from rfl,
        extractStrings, h1]
    simp [h2, h3, strUnits, isSimpleTextOperator]

/-- Witness for C1: a literal string followed by `Tj` is recovered. -/
theorem extractStrings_text_operator_gate_witness :
    extractStrings (strUnits "(Hi) Tj") = some [strUnits "Hi"] := by
  have h1 : readLiteralString [72, 105, 41, 32, 84, 106] =
      (some [72, 105], [32, 84, 106]) := by
    simp [readLiteralString, readLitAux, pushByte, isOctalDigit, decodeText, utf8ToUnits]
  have h2 : readOperator [32, 84, 106] = (some [84, 106], []) := by
    simp [readOperator, takeAlpha, isJsSpace, isAlphaCh, List.dropWhile]
  have h3 : extractStrings ([] : List Nat) = some [] := by simp [extractStrings]
  have h4 := extractStrings_text_operator_gate.1 [72, 105, 41, 32, 84, 106] [72, 105]
    [32, 84, 106] (some [84, 106]) [] [] h1 h2 h3
  rw [show strUnits "(Hi) Tj" = 40 :: [72, 105, 41, 32, 84, 106] from rfl, h4]
  simp [isSimpleTextOperator, strUnits]

/-- Claim C2. Literal-string escape decoding follows the escape table:
`\\n,\\r,\\t,\\b,\\f` yield their control codes; `\\(`, `\\)`, `\\\\` yield the
literal character; a 1-to-3-octal-digit escape yields that value (so
`\\101\\102\\103` decodes to `ABC`); a backslash immediately followed by a
line break contributes nothing; any other escaped character contributes its
own code; unescaped parentheses adjust the nesting depth while escaped ones
do not, so `(a \\( b \\) c)` decodes to `a ( b ) c`. -/
theorem readLiteralString_escape_table :
    (∀ dep s a b c, isOctalDigit a = true → isOctalDigit b = true →
      isOctalDigit c = true →
      readLitAux dep (92 :: a :: b :: c :: s) =
        (((a - 48) * 64 + (b - 48) * 8 + (c - 48)) :: (readLitAux dep s).1,
          (readLitAux dep s).2))
  ∧ (∀ dep s a b x, isOctalDigit a = true → isOctalDigit b = true →
      isOctalDigit x = false →
      readLitAux dep (92 :: a :: b :: x :: s) =
        (((a - 48) * 8 + (b - 48)) :: (readLitAux dep (x :: s)).1,
          (readLitAux dep (x :: s)).2))
  ∧ (∀ dep s a x, isOctalDigit a = true → isOctalDigit x = false →
      readLitAux dep (92 :: a :: x :: s) =
        ((a - 48) :: (readLitAux dep (x :: s)).1, (readLitAux dep (x :: s)).2))
  ∧ (∀ dep s,
      readLitAux dep (92 :: 110 :: s) = (10 :: (readLitAux dep s).1, (readLitAux dep s).2)
    ∧ readLitAux dep (92 :: 114 :: s) = (13 :: (readLitAux dep s).1, (readLitAux dep s).2)
    ∧ readLitAux dep (92 :: 116 :: s) = (9 :: (readLitAux dep s).1, (readLitAux dep s).2)
    ∧ readLitAux dep (92 :: 98 :: s) = (8 :: (readLitAux dep s).1, (readLitAux dep s).2)
    ∧ readLitAux dep (92 :: 102 :: s) = (12 :: (readLitAux dep s).1, (readLitAux dep s).2))
  ∧ (∀ dep s q, q = 40 ∨ q = 41 ∨ q = 92 →
      readLitAux dep (92 :: q :: s) = (q :: (readLitAux dep s).1, (readLitAux dep s).2))
  ∧ (∀ dep s, readLitAux dep (92 :: 10 :: s) = readLitAux dep s)
  ∧ (∀ dep s, readLitAux dep (92 :: 13 :: 10 :: s) = readLitAux dep s)
  ∧ (∀ dep s x, x ≠ 10 → readLitAux dep (92 :: 13 :: x :: s) = readLitAux dep (x :: s))
  ∧ (∀ dep s x, isOctalDigit x = false → x ≠ 110 → x ≠ 114 → x ≠ 116 → x ≠ 98 →
      x ≠ 102 → x ≠ 40 → x ≠ 41 → x ≠ 92 → x ≠ 13 → x ≠ 10 →
      readLitAux dep (92 :: x :: s) = (x :: (readLitAux dep s).1, (readLitAux dep s).2))
  ∧ (∀ dep s, readLitAux dep (40 :: s) =
      (40 :: (readLitAux (dep + 1) s).1, (readLitAux (dep + 1) s).2))
  ∧ (∀ dep s, 1 < dep → readLitAux dep (41 :: s) =
      (41 :: (readLitAux (dep - 1) s).1, (readLitAux (dep - 1) s).2))
  ∧ (∀ s, readLitAux 1 (41 :: s) = ([], s))
  ∧ readLiteralString (strUnits "\\101\\102\\103)") = (some (strUnits "ABC"), [])
  ∧ readLiteralString (strUnits "a \\( b \\) c)") = (some (strUnits "a ( b ) c"), []) := by
  refine ⟨?_, ?_, ?_, ?_, ?_, ?_, ?_, ?_, ?_, ?_, ?_, ?_, ?_, ?_⟩
  · intro dep s a b c ha hb hc
    rw [readLitAux.eq_def]
    simp [pushByte, ha, hb, hc]
  · intro dep s a b x ha hb hx
    rw [readLitAux.eq_def]
    simp [pushByte, ha, hb, hx]
  · intro dep s a x ha hx
    rw [readLitAux.eq_def]
    simp [pushByte, ha, hx]
  · intro dep s
    refine ⟨?_, ?_, ?_, ?_, ?_⟩ <;> (rw [readLitAux.eq_def]; simp [pushByte, isOctalDigit])
  · intro dep s q hq
    rcases hq with rfl | rfl | rfl <;> (rw [readLitAux.eq_def]; simp [pushByte, isOctalDigit])
  · intro dep s
    rw [readLitAux.eq_def]
    simp [isOctalDigit]
  · intro dep s
    rw [readLitAux.eq_def]
    simp [isOctalDigit]
  · intro dep s x hx
    rw [readLitAux.eq_def]
    simp [isOctalDigit, hx]
  · intro dep s x hoct h1 h2 h3 h4 h5 h6 h7 h8 h9 h10
    rw [readLitAux.eq_def]
    simp [pushByte, hoct, h1, h2, h3, h4, h5, h6, h7, h8, h9, h10]
  · intro dep s
    rw [readLitAux.eq_def]
    simp [pushByte]
  · intro dep s hdep
    rw [readLitAux.eq_def]
    have : dep - 1 > 0 := by omega
    simp [pushByte, this]
  · intro s
    rw [readLitAux.eq_def]
    simp
  · simp [readLiteralString, readLitAux, pushByte, isOctalDigit, decodeText,
          utf8ToUnits, strUnits]
  · simp [readLiteralString, readLitAux, pushByte, isOctalDigit, decodeText,
          utf8ToUnits, strUnits]

/-- Witness for C2: the octal escapes `\\101` decode to byte 65 inside a
literal string body. -/
theorem readLiteralString_escape_table_witness :
    readLitAux 1 [92, 49, 48, 49, 41] = ([65], []) := by
  have h1 := readLiteralString_escape_table.1 1 [41] 49 48 49
    (by decide) (by decide) (by decide)
  have h2 := readLiteralString_escape_table.2.2.2.2.2.2.2.2.2.2.2.1 []
  rw [h1, h2]

lemma encode_cons_small (cp : Nat) (cps : List Nat) (h : cp < 65536) :
    utf16EncodeUnits (cp :: cps) = cp :: utf16EncodeUnits cps := by
  simp [utf16EncodeUnits, h]

lemma encode_cons_big (cp : Nat) (cps : List Nat) (h : ¬cp < 65536) :
    utf16EncodeUnits (cp :: cps) = surrogatePair cp ++ utf16EncodeUnits cps := by
  simp [utf16EncodeUnits, h]

lemma cp2_lt (b b2 : Nat) (hb : 194 ≤ b ∧ b ≤ 223) (h2 : isCont b2 = true) :
    cp2 b b2 < 65536 := by
  simp [isCont] at h2
  simp [cp2]
  omega

lemma utf8Second3_bounds (b b2 : Nat) (h : utf8Second3 b b2 = true) :
    128 ≤ b2 ∧ b2 ≤ 191 := by
  unfold utf8Second3 at h
  split_ifs at h <;> simp [isCont] at h <;> omega

lemma cp3_lt (b b2 b3 : Nat) (hb : 224 ≤ b ∧ b ≤ 239) (h2 : utf8Second3 b b2 = true)
    (h3 : isCont b3 = true) : cp3 b b2 b3 < 65536 := by
  have hb2 := utf8Second3_bounds b b2 h2
  simp [isCont] at h3
  simp [cp3]
  omega

lemma cp4_bounds (b b2 b3 b4 : Nat) (hb : 240 ≤ b ∧ b ≤ 244)
    (h2 : utf8Second4 b b2 = true) (h3 : isCont b3 = true) (h4 : isCont b4 = true) :
    65536 ≤ cp4 b b2 b3 b4 ∧ cp4 b b2 b3 b4 < 1114112 := by
  simp [isCont] at h3 h4
  unfold utf8Second4 at h2
  unfold cp4
  split_ifs at h2 with e1 e2
  · simp at h2
    omega
  · simp at h2
    omega
  · simp [isCont] at h2
    omega

set_option maxRecDepth 4000 in
lemma utf8Decode_spec (bs : List Nat) :
    (∀ cps, utf8Decode bs = some cps →
      utf8ToUnits bs = utf16EncodeUnits cps ∧ ∀ cp ∈ cps, cp < 1114112)
  ∧ (utf8Decode bs = none → 65533 ∈ utf8ToUnits bs) := by
  induction bs using utf8ToUnits.induct with
  | case1 =>
    refine ⟨fun cps hcps => ?_, fun hnone => ?_⟩
    · rw [utf8Decode.eq_def] at hcps
      simp only [Option.some.injEq] at hcps
      subst hcps
      rw [utf8ToUnits.eq_def]
      simp [utf16EncodeUnits]
    · rw [utf8Decode.eq_def] at hnone
      simp at hnone
  | case2 b rest hlt ih =>
    refine ⟨fun cps hcps => ?_, fun hnone => ?_⟩
    · rw [utf8Decode.eq_def] at hcps
      simp only [if_pos hlt] at hcps
      obtain ⟨cps', hd, rfl⟩ := Option.map_eq_some'.mp hcps
      obtain ⟨hu, hbd⟩ := ih.1 cps' hd
      refine ⟨?_, ?_⟩
      · rw [utf8ToUnits.eq_def]
        simp only [if_pos hlt]
        rw [encode_cons_small b cps' (by omega), hu]
      · intro cp hcp
        rcases List.mem_cons.mp hcp with rfl | h
        · omega
        · exact hbd cp h
    · rw [utf8Decode.eq_def] at hnone
      simp only [if_pos hlt, Option.map_eq_none'] at hnone
      rw [utf8ToUnits.eq_def]
      simp only [if_pos hlt]
      exact List.mem_cons_of_mem b (ih.2 hnone)
  | case3 b hnlt hb b2 rest2 hc ih =>
    refine ⟨fun cps hcps => ?_, fun hnone => ?_⟩
    · rw [utf8Decode.eq_def] at hcps
      simp only [if_neg hnlt, if_pos hb, hc, if_pos] at hcps
      obtain ⟨cps', hd, rfl⟩ := Option.map_eq_some'.mp hcps
      obtain ⟨hu, hbd⟩ := ih.1 cps' hd
      refine ⟨?_, ?_⟩
      · rw [utf8ToUnits.eq_def]
        simp only [if_neg hnlt, if_pos hb, hc, if_pos]
        rw [encode_cons_small _ cps' (cp2_lt b b2 hb hc), hu]
      · intro cp hcp
        rcases List.mem_cons.mp hcp with rfl | h
        · have := cp2_lt b b2 hb hc
          omega
        · exact hbd cp h
    · rw [utf8Decode.eq_def] at hnone
      simp only [if_neg hnlt, if_pos hb, hc, if_pos, Option.map_eq_none'] at hnone
      rw [utf8ToUnits.eq_def]
      simp only [if_neg hnlt, if_pos hb, hc, if_pos]
      exact List.mem_cons_of_mem _ (ih.2 hnone)
  | case4 b hnlt hb b2 rest2 hnc ih =>
    refine ⟨fun cps hcps => ?_, fun hnone => ?_⟩
    · rw [utf8Decode.eq_def] at hcps
      simp [hnlt, hb, hnc] at hcps
    · rw [utf8ToUnits.eq_def]
      simp [hnlt, hb, hnc]
  | case5 b hnlt hb =>
    refine ⟨fun cps hcps => ?_, fun hnone => ?_⟩
    · rw [utf8Decode.eq_def] at hcps
      simp [hnlt, hb] at hcps
    · rw [utf8ToUnits.eq_def]
      simp [hnlt, hb]
  | case6 b hnlt hn2 hb b2 hs3 b3 rest3 hc ih =>
    refine ⟨fun cps hcps => ?_, fun hnone => ?_⟩
    · rw [utf8Decode.eq_def] at hcps
      simp only [if_neg hnlt, if_neg hn2, if_pos hb, hs3, hc, if_pos] at hcps
      obtain ⟨cps', hd, rfl⟩ := Option.map_eq_some'.mp hcps
      obtain ⟨hu, hbd⟩ := ih.1 cps' hd
      refine ⟨?_, ?_⟩
      · rw [utf8ToUnits.eq_def]
        simp only [if_neg hnlt, if_neg hn2, if_pos hb, hs3, hc, if_pos]
        rw [encode_cons_small _ cps' (cp3_lt b b2 b3 hb hs3 hc), hu]
      · intro cp hcp
        rcases List.mem_cons.mp hcp with rfl | h
        · have := cp3_lt b b2 b3 hb hs3 hc
          omega
        · exact hbd cp h
    · rw [utf8Decode.eq_def] at hnone
      simp only [if_neg hnlt, if_neg hn2, if_pos hb, hs3, hc, if_pos,
        Option.map_eq_none'] at hnone
      rw [utf8ToUnits.eq_def]
      simp only [if_neg hnlt, if_neg hn2, if_pos hb, hs3, hc, if_pos]
      exact List.mem_cons_of_mem _ (ih.2 hnone)
  | case7 b hnlt hn2 hb b2 hs3 b3 rest3 hnc ih =>
    refine ⟨fun cps hcps => ?_, fun hnone => ?_⟩
    · rw [utf8Decode.eq_def] at hcps
      simp [hnlt, hn2, hb, hs3, hnc] at hcps
    · rw [utf8ToUnits.eq_def]
      simp [hnlt, hn2, hb, hs3, hnc]
  | case8 b hnlt hn2 hb b2 hs3 =>
    refine ⟨fun cps hcps => ?_, fun hnone => ?_⟩
    · rw [utf8Decode.eq_def] at hcps
      simp [hnlt, hn2, hb, hs3] at hcps
    · rw [utf8ToUnits.eq_def]
      simp [hnlt, hn2, hb, hs3]
  | case9 b hnlt hn2 hb b2 rest2 hns3 ih =>
    refine ⟨fun cps hcps => ?_, fun hnone => ?_⟩
    · rw [utf8Decode.eq_def] at hcps
      simp [hnlt, hn2, hb, hns3] at hcps
    · rw [utf8ToUnits.eq_def]
      simp [hnlt, hn2, hb, hns3]
  | case10 b hnlt hn2 hb =>
    refine ⟨fun cps hcps => ?_, fun hnone => ?_⟩
    · rw [utf8Decode.eq_def] at hcps
      simp [hnlt, hn2, hb] at hcps
    · rw [utf8ToUnits.eq_def]
      simp [hnlt, hn2, hb]
  | case11 b hnlt hn2 hn3 hb b2 hs4 b3 hc3 b4 rest4 hc4 ih =>
    refine ⟨fun cps hcps => ?_, fun hnone => ?_⟩
    · rw [utf8Decode.eq_def] at hcps
      simp only [if_neg hnlt, if_neg hn2, if_neg hn3, if_pos hb, hs4, hc3, hc4,
        if_pos] at hcps
      obtain ⟨cps', hd, rfl⟩ := Option.map_eq_some'.mp hcps
      obtain ⟨hu, hbd⟩ := ih.1 cps' hd
      have hcp4 := cp4_bounds b b2 b3 b4 hb hs4 hc3 hc4
      refine ⟨?_, ?_⟩
      · rw [utf8ToUnits.eq_def]
        simp only [if_neg hnlt, if_neg hn2, if_neg hn3, if_pos hb, hs4, hc3, hc4,
          if_pos]
        rw [encode_cons_big _ cps' (by omega), hu]
      · intro cp hcp
        rcases List.mem_cons.mp hcp with rfl | h
        · omega
        · exact hbd cp h
    · rw [utf8Decode.eq_def] at hnone
      simp only [if_neg hnlt, if_neg hn2, if_neg hn3, if_pos hb, hs4, hc3, hc4,
        if_pos, Option.map_eq_none'] at hnone
      rw [utf8ToUnits.eq_def]
      simp only [if_neg hnlt, if_neg hn2, if_neg hn3, if_pos hb, hs4, hc3, hc4,
        if_pos]
      exact List.mem_append_right _ (ih.2 hnone)
  | case12 b hnlt hn2 hn3 hb b2 hs4 b3 hc3 b4 rest4 hnc4 ih =>
    refine ⟨fun cps hcps => ?_, fun hnone => ?_⟩
    · rw [utf8Decode.eq_def] at hcps
      simp [hnlt, hn2, hn3, hb, hs4, hc3, hnc4] at hcps
    · rw [utf8ToUnits.eq_def]
      simp [hnlt, hn2, hn3, hb, hs4, hc3, hnc4]
  | case13 b hnlt hn2 hn3 hb b2 hs4 b3 hc3 =>
    refine ⟨fun cps hcps => ?_, fun hnone => ?_⟩
    · rw [utf8Decode.eq_def] at hcps
      simp [hnlt, hn2, hn3, hb, hs4, hc3] at hcps
    · rw [utf8ToUnits.eq_def]
      simp [hnlt, hn2, hn3, hb, hs4, hc3]
  | case14 b hnlt hn2 hn3 hb b2 hs4 b3 rest3 hnc3 ih =>
    refine ⟨fun cps hcps => ?_, fun hnone => ?_⟩
    · rw [utf8Decode.eq_def] at hcps
      simp [hnlt, hn2, hn3, hb, hs4, hnc3] at hcps
    · rw [utf8ToUnits.eq_def]
      simp [hnlt, hn2, hn3, hb, hs4, hnc3]
  | case15 b hnlt hn2 hn3 hb b2 hs4 =>
    refine ⟨fun cps hcps => ?_, fun hnone => ?_⟩
    · rw [utf8Decode.eq_def] at hcps
      simp [hnlt, hn2, hn3, hb, hs4] at hcps
    · rw [utf8ToUnits.eq_def]
      simp [hnlt, hn2, hn3, hb, hs4]
  | case16 b hnlt hn2 hn3 hb b2 rest2 hns4 ih =>
    refine ⟨fun cps hcps => ?_, fun hnone => ?_⟩
    · rw [utf8Decode.eq_def] at hcps
      simp [hnlt, hn2, hn3, hb, hns4] at hcps
    · rw [utf8ToUnits.eq_def]
      simp [hnlt, hn2, hn3, hb, hns4]
  | case17 b hnlt hn2 hn3 hb =>
    refine ⟨fun cps hcps => ?_, fun hnone => ?_⟩
    · rw [utf8Decode.eq_def] at hcps
      simp [hnlt, hn2, hn3, hb] at hcps
    · rw [utf8ToUnits.eq_def]
      simp [hnlt, hn2, hn3, hb]
  | case18 b rest hnlt hn2 hn3 hn4 ih =>
    refine ⟨fun cps hcps => ?_, fun hnone => ?_⟩
    · rw [utf8Decode.eq_def] at hcps
      simp [hnlt, hn2, hn3, hn4] at hcps
    · rw [utf8ToUnits.eq_def]
      simp [hnlt, hn2, hn3, hn4]

lemma mem_encode_fffd (cps : List Nat) (hb : ∀ cp ∈ cps, cp < 1114112) :
    65533 ∈ utf16EncodeUnits cps ↔ 65533 ∈ cps := by
  induction cps with
  | nil => simp [utf16EncodeUnits]
  | cons cp cps ih =>
    have hcp := hb cp (List.mem_cons_self cp cps)
    have ih' := ih (fun c hc => hb c (List.mem_cons_of_mem cp hc))
    by_cases hsm : cp < 65536
    · rw [encode_cons_small cp cps hsm]
      simp [ih']
    · rw [encode_cons_big cp cps hsm]
      have hpair : ¬(65533 ∈ surrogatePair cp) := by
        simp [surrogatePair]
        omega
      simp [List.mem_append, hpair, ih']
      omega

/-- Claim C3. Byte-to-text decoding of a recovered string's raw bytes: a
UTF-16 big-endian byte-order mark makes the remainder decode as UTF-16
big-endian (`swap16` throws — `none` — on an odd remainder), a little-endian
mark as UTF-16 little-endian (trailing odd byte ignored); otherwise UTF-8
decoding is attempted, and when it hits an invalid sequence or yields a
replacement marker U+FFFD the bytes are mapped directly one byte per
character (Latin-1 style). -/
theorem decodeText_encoding_dispatch (bytes : List Nat) (h : ∀ b ∈ bytes, b < 256) :
    (∀ rest, bytes = 254 :: 255 :: rest →
      decodeText bytes = if rest.length % 2 = 0 then some (utf16be rest) else none)
  ∧ (∀ rest, bytes = 255 :: 254 :: rest → decodeText bytes = some (utf16lePairs rest))
  ∧ (bytes.take 2 ≠ [254, 255] → bytes.take 2 ≠ [255, 254] →
      decodeText bytes = some (match utf8Decode bytes with
        | none => bytes
        | some cps => if 65533 ∈ cps then bytes else utf16EncodeUnits cps)) := by
  have hbuf : bytes.map (fun x => x % 256) = bytes := by
    have hc := List.map_congr_left (l := bytes) (f := fun x => x % 256) (g := id)
      (fun a ha => Nat.mod_eq_of_lt (h a ha))
    simpa using hc
  refine ⟨?_, ?_, ?_⟩
  · intro rest hrest
    subst hrest
    unfold decodeText
    rw [hbuf]
    simp
  · intro rest hrest
    subst hrest
    unfold decodeText
    rw [hbuf]
    simp
  · intro hne1 hne2
    have hmain : decodeText bytes =
        some (if (utf8ToUnits bytes).contains 65533 then bytes else utf8ToUnits bytes) := by
      unfold decodeText
      rw [hbuf]
      match bytes, h with
      | [], _ => simp [utf8ToUnits]
      | [b0], _ => simp
      | b0 :: b1 :: rest, h =>
        have hb0 : b0 < 256 := h b0 (by simp)
        have hb1 : b1 < 256 := h b1 (by simp)
        have hbom1 : ¬(256 * b0 + b1 = 65279) := by
          intro hc
          apply hne1
          simp only [List.take]
          have : b0 = 254 ∧ b1 = 255 := by omega
          simp [this.1, this.2]
        have hbom2 : ¬(256 * b0 + b1 = 65534) := by
          intro hc
          apply hne2
          simp only [List.take]
          have : b0 = 255 ∧ b1 = 254 := by omega
          simp [this.1, this.2]
        simp [hbom1, hbom2]
    rw [hmain]
    rcases hspec : utf8Decode bytes with _ | cps
    · have hmem := (utf8Decode_spec bytes).2 hspec
      simp [List.elem_iff, hmem]
    · obtain ⟨hu, hbd⟩ := (utf8Decode_spec bytes).1 cps hspec
      by_cases hm : 65533 ∈ cps
      · have : 65533 ∈ utf8ToUnits bytes := by
          rw [hu]
          exact (mem_encode_fffd cps hbd).mpr hm
        simp [List.elem_iff, this, hm]
      · have : ¬(65533 ∈ utf8ToUnits bytes) := by
          rw [hu]
          exact fun hc => hm ((mem_encode_fffd cps hbd).mp hc)
        simp [List.elem_iff, this, hm, hu]
        intro hc
        exact absurd ((mem_encode_fffd cps hbd).mp hc) hm

/-- Witness for C3: a little-endian BOM string decodes as UTF-16LE. -/
theorem decodeText_encoding_dispatch_witness :
    decodeText [255, 254, 72, 0] = some [72] := by
  have hle := (decodeText_encoding_dispatch [255, 254, 72, 0] (by decide)).2.1 [72, 0] rfl
  rw [hle]
  simp [utf16lePairs]

lemma collectHex_append (body rest : List Nat) (hb : ∀ c ∈ body, c ≠ 62) :
    collectHex (body ++ 62 :: rest) = (body.filter (fun c => !isJsSpace c), rest) := by
  induction body with
  | nil => simp [collectHex]
  | cons c body ih =>
    have hc : c ≠ 62 := hb c (List.mem_cons_self c body)
    have ih' := ih (fun d hd => hb d (List.mem_cons_of_mem c hd))
    by_cases hs : isJsSpace c <;>
      simp [collectHex, hc, hs, ih', List.filter_cons]

lemma hexPairs_eq_specPairs (ds : List Nat) (hd : ∀ c ∈ ds, isHexDigit c = true)
    (hev : ds.length % 2 = 0) : hexPairs ds = specPairs ds := by
  induction ds using hexPairs.induct with
  | case1 a b rest ih =>
    have ha : isHexDigit a = true := hd a (by simp)
    have hbb : isHexDigit b = true := hd b (by simp)
    have ih' := ih (fun c hc => hd c (by simp [hc]))
    simp only [List.length_cons] at hev
    rw [hexPairs, specPairs, hexPairVal, if_pos ha, if_pos hbb, ih' (by omega)]
  | case2 a =>
    simp at hev
  | case3 => rfl

/-- Claim C4. Embedded `readHexString` collects the token's characters up to `>`
ignoring whitespace, pads an odd-length digit sequence with a trailing zero
nibble, and decodes digit pairs to bytes; `<48656C6C6F>` decodes to
`Hello`, and odd-length `<48656C6C6>` decodes like `<48656C6C60>`. -/
theorem readHexString_pairs (body rest : List Nat)
    (hb : ∀ c ∈ body, c ≠ 62 ∧ (isHexDigit c = true ∨ isJsSpace c = true)) :
    readHexString (body ++ 62 :: rest) =
      (decodeText (specHexBytes (body.filter (fun c => !isJsSpace c))), rest)
  ∧ readHexString (strUnits "48656C6C6F>") = (some (strUnits "Hello"), [])
  ∧ readHexString (strUnits "48656C6C6>") = readHexString (strUnits "48656C6C60>") := by
  refine ⟨?_, ?_, ?_⟩
  · have hcoll := collectHex_append body rest (fun c hc => (hb c hc).1)
    have hdig : ∀ c ∈ body.filter (fun c => !isJsSpace c), isHexDigit c = true := by
      intro c hc
      obtain ⟨hmem, hns⟩ := List.mem_filter.mp hc
      rcases (hb c hmem).2 with hx | hs
      · exact hx
      · simp [hs] at hns
    set digits := body.filter (fun c => !isJsSpace c) with hdigits
    have hpad : ∀ padded, padded = (if digits.length % 2 = 1 then digits ++ [48] else digits) →
        hexPairs padded = specPairs padded := by
      intro padded hp
      apply hexPairs_eq_specPairs
      · intro c hc
        rw [hp] at hc
        by_cases hodd : digits.length % 2 = 1
        · rw [if_pos hodd] at hc
          rcases List.mem_append.mp hc with hm | hm
          · exact hdig c hm
          · simp at hm
            subst hm
            decide
        · rw [if_neg hodd] at hc
          exact hdig c hc
      · rw [hp]
        by_cases hodd : digits.length % 2 = 1 <;> simp [hodd] <;> omega
    unfold readHexString
    rw [hcoll]
    simp only []
    rw [hpad _ rfl]
    rfl
  · simp [readHexString, collectHex, hexPairs, hexPairVal, isHexDigit, hexVal,
          isJsSpace, decodeText, utf8ToUnits, strUnits]
  · simp [readHexString, collectHex, hexPairs, hexPairVal, isHexDigit, hexVal,
          isJsSpace, decodeText, utf8ToUnits, strUnits]

/-- Witness for C4: whitespace inside a hex token is ignored. -/
theorem readHexString_pairs_witness :
    readHexString (strUnits "48 65>") = (some (strUnits "He"), []) := by
  have hgen := (readHexString_pairs (strUnits "48 65") [] (by decide)).1
  rw [show strUnits "48 65>" = strUnits "48 65" ++ 62 :: [] from rfl, hgen]
  simp [specHexBytes, specPairs, hexVal, isJsSpace, decodeText, utf8ToUnits, strUnits]

lemma pdfPageLoop_ocrPages (pages : List (List (Option (List Nat)))) :
    ∀ k p, p ∈ (pdfPageLoop k pages).2 ↔
      ∃ i, i < pages.length ∧ p = k + i ∧
        (jsTrim (pageTextOf (pages.getD i []))).length < MIN_TEXT_LENGTH := by
  induction pages with
  | nil => simp [pdfPageLoop]
  | cons items rest ih =>
    intro k p
    rw [pdfPageLoop]
    by_cases hc : (jsTrim (pageTextOf items)).length < MIN_TEXT_LENGTH
    · simp only [if_pos hc, List.mem_cons]
      constructor
      · intro hmem
        rcases hmem with rfl | hmem
        · exact ⟨0, by simp, by omega, by simpa using hc⟩
        · obtain ⟨i, hi, rfl, hcond⟩ := (ih (k + 1) p).mp hmem
          exact ⟨i + 1, by simp; omega, by omega, by simpa using hcond⟩
      · rintro ⟨i, hi, rfl, hcond⟩
        rcases i with _ | i
        · left; omega
        · right
          refine (ih (k + 1) (k + (i + 1))).mpr ⟨i, by simp at hi; omega, by omega, ?_⟩
          simpa using hcond
    · simp only [if_neg hc]
      constructor
      · intro hmem
        obtain ⟨i, hi, rfl, hcond⟩ := (ih (k + 1) p).mp hmem
        exact ⟨i + 1, by simp; omega, by omega, by simpa using hcond⟩
      · rintro ⟨i, hi, rfl, hcond⟩
        rcases i with _ | i
        · exact absurd (by simpa using hcond) hc
        · refine (ih (k + 1) (k + (i + 1))).mpr ⟨i, by simp at hi; omega, by omega, ?_⟩
          simpa using hcond

/-- Claim C5. A page's 1-indexed number is present in `metadata.ocrPages`
exactly when the page's trimmed structured-text length is below the
50-character threshold. -/
theorem pdfExtract_ocrPages_iff (pages : List (List (Option (List Nat)))) (i : Nat)
    (hi : i < pages.length) :
    (i + 1) ∈ (pdfExtract pages).ocrPages ↔
      (jsTrim (pageTextOf (pages.getD i []))).length < 50 := by
  unfold pdfExtract
  rw [pdfPageLoop_ocrPages pages 1 (i + 1)]
  constructor
  · rintro ⟨j, hj, hij, hcond⟩
    have : j = i := by omega
    subst this
    exact hcond
  · intro hcond
    exact ⟨i, hi, by omega, hcond⟩

/-- Witness for C5: a document whose only page holds 2 characters of text
has page 1 in `ocrPages`. -/
theorem pdfExtract_ocrPages_iff_witness :
    1 ∈ (pdfExtract [[some (strUnits "hi")]]).ocrPages := by
  refine (pdfExtract_ocrPages_iff [[some (strUnits "hi")]] 0 (by decide)).mpr ?_
  decide

/-- Claim C6. Metadata flag `isScannedPdf` is true exactly when `ocrPages.length`
equals `pageCount` and the document has at least one page. -/
theorem pdfExtract_isScannedPdf_iff (pages : List (List (Option (List Nat)))) :
    (pdfExtract pages).isScannedPdf = true ↔
      ((pdfExtract pages).ocrPages.length = (pdfExtract pages).pageCount ∧
        0 < (pdfExtract pages).pageCount) := by
  unfold pdfExtract
  simp

/-- Claim C7. (code bug in `normalizeText`) Normalization is NOT idempotent on
chunk text content: the single-newline merge
`.replace(/([^\n])\n([^\n])/g, "$1 $2")` consumes its right-context
character, so on `"a\nb\nc"` one pass yields `"a b\nc"` and a second pass
yields `"a b c"`, contradicting the documented idempotence. -/
theorem normalizeDocument_not_idempotent :
    chunkTexts
        (normalizeDocument (strUnits "d2") (fun _ => [])
          (normalizeDocument (strUnits "d1") (fun _ => [])
            { documentId := strUnits "d", fileName := strUnits "f",
              chunks := [{ id := [], type := ChunkType.paragraph,
                           text := strUnits "a\nb\nc" }] })) ≠
      chunkTexts
        (normalizeDocument (strUnits "d1") (fun _ => [])
          { documentId := strUnits "d", fileName := strUnits "f",
            chunks := [{ id := [], type := ChunkType.paragraph,
                         text := strUnits "a\nb\nc" }] }) := by
  decide

lemma except_bind_error {α β ε : Type} (e : ε) (f : α → Except ε β) :
    (Except.error e >>= f) = Except.error e := rfl

lemma except_bind_ok {α β ε : Type} (a : α) (f : α → Except ε β) :
    (Except.ok a >>= f) = f a := rfl

/-- Counterexample for C8: with a provider whose `recognize` raises on the
second image, the per-page image loop returns that error (images after the
failing one are never reached) and the document-level loop propagates it —
the failure is not caught, logged, or skipped. -/
theorem ocr_failure_not_caught_counterexample :
    extractImageTextsE failingRecognizer [1, 2, 3] = Except.error ()
  ∧ extractDocImagesE failingRecognizer [[1], [2, 3]] = Except.error () := by
  exact ⟨rfl, rfl⟩

/-- Claim C8. (as amended) An exception raised by the provider's `recognize`
for one image is NOT caught by `extractImageTexts`: once the earlier images
have been recognized, the error propagates out of the per-page loop (and
hence aborts the document-level extraction); the later images on the page
are never processed. -/
theorem ocr_failure_propagates {α ε : Type} (recognize : α → Except ε (List Nat))
    (pre : List α) (img : α) (post : List α) (e : ε)
    (hpre : ∀ b ∈ pre, ∃ t, recognize b = Except.ok t)
    (himg : recognize img = Except.error e) :
    extractImageTextsE recognize (pre ++ img :: post) = Except.error e := by
  induction pre with
  | nil => simp [extractImageTextsE, himg, except_bind_error]
  | cons a pre ih =>
    obtain ⟨t, ht⟩ := hpre a (List.mem_cons_self a pre)
    have ih' := ih (fun b hb => hpre b (List.mem_cons_of_mem a hb))
    simp [extractImageTextsE, ht, ih', except_bind_error, except_bind_ok]

/-- Witness for C8 (amended): concrete propagation after one successful
image. -/
theorem ocr_failure_propagates_witness :
    extractImageTextsE failingRecognizer [5, 2, 3] = Except.error () := by
  have h := ocr_failure_propagates failingRecognizer [5] 2 [3] ()
    (by
      intro b hb
      simp at hb
      subst hb
      exact ⟨strUnits "ok", rfl⟩)
    rfl
  exact h

/-- Claim C9. (code bug in `resolveColorSpace`) The source recursion has NO
explicit depth bound: on a self-referential color-space table entry
(`/Foo ↦ [/Foo]`) the recursion never terminates — for every recursion
budget the fueled embedding exhausts it — so a malformed document causes
unbounded recursion (a stack overflow that aborts extraction) instead of
failing closed past a small fixed depth. -/
theorem resolveColorSpace_unbounded_on_cycle :
    ∀ fuel, resolveColorSpaceF fuel cycValue (some cycColorSpaces) = none := by
  intro fuel
  induction fuel with
  | zero => rfl
  | succ n ih =>
    rw [resolveColorSpaceF.eq_def]
    simp only [cycValue, cycColorSpaces]
    simp [lookupCsArray, firstName, strUnits]
    exact ih

/-- Claim C10. When an image stream's dictionary has no `ColorSpace` entry,
`resolveColorSpace(undefined)` returns `DeviceRGB` rather than abandoning
the image, so an 8-bit unfiltered or flate-compressed raw stream with a
missing `ColorSpace` is decoded as a 3-channel raw RGB raster instead of
being skipped. -/
theorem missing_colorSpace_decodes_rgb (fuel : Nat) (s : ImgStream)
    (resources : Option (List (List Nat × PObj)))
    (hf : 0 < fuel) (hcs : s.colorSpace = none)
    (hbpc : s.bitsPerComponent.getD 8 = 8) (hraw : s.isRawStream = true)
    (hfil : getFilterNames s.filter = [] ∨
      (getFilterNames s.filter).all (fun n => n = strUnits "FlateDecode") = true) :
    resolveColorSpaceF fuel none resources = some (some ColorSpaceKind.DeviceRGB) ∧
    convertPlan fuel s resources = some (ConvPlan.rawRaster 3) := by
  obtain ⟨fuel, rfl⟩ : ∃ n, fuel = n + 1 := ⟨fuel - 1, by omega⟩
  have hres : resolveColorSpaceF (fuel + 1) none resources =
      some (some ColorSpaceKind.DeviceRGB) := by
    rw [resolveColorSpaceF.eq_def]
  refine ⟨hres, ?_⟩
  unfold convertPlan
  rw [hcs, hres]
  have hdct : (getFilterNames s.filter).any
      (fun n => n = strUnits "DCTDecode" ∨ n = strUnits "JPXDecode") = false := by
    rw [List.any_eq_false]
    intro n hn
    rcases hfil with hfil | hfil
    · rw [hfil] at hn
      simp at hn
    · have := List.all_eq_true.mp hfil n hn
      simp only [decide_eq_true_eq] at this
      subst this
      simp [strUnits]
  have hcond : ((getFilterNames s.filter).isEmpty ∨
      (getFilterNames s.filter).all (fun n => n = strUnits "FlateDecode") = true) ∧
      s.isRawStream = true ∧ s.bitsPerComponent.getD 8 = 8 := by
    refine ⟨?_, hraw, hbpc⟩
    rcases hfil with hfil | hfil
    · exact Or.inl (by simp [hfil])
    · exact Or.inr hfil
  simp only [hdct]
  simp [hcond.1, hcond.2.1, hcond.2.2, getChannelCount]
  intro hne x hx
  rcases hfil with hfil | hfil
  · exact absurd hfil hne
  · have := List.all_eq_true.mp hfil x hx
    simpa using this

/-- Witness for C10: an unfiltered 8-bit raw stream with no ColorSpace
entry is planned as a 3-channel raw raster. -/
theorem missing_colorSpace_decodes_rgb_witness :
    convertPlan 1 ⟨none, none, true, none⟩ none = some (ConvPlan.rawRaster 3) :=
  (missing_colorSpace_decodes_rgb 1 ⟨none, none, true, none⟩ none (by decide) rfl rfl
    rfl (Or.inl rfl)).2
